import Mathlib

/-!
Verification of the selection/health/relay core of `fastapi-reverse-proxy`.

Shallow embedding of:
- `src/health_check.py` (`HealthChecker`): registry normalization, probe-cycle
  state updates, snapshot queries;
- `src/load_balance.py` / `src/src/fastapi_reverse_proxy/load_balance.py`
  (`LoadBalancer`): static round-robin mode and health-aware mode with
  per-origin request quotas;
- `src/proxy_pass.py` (`proxy_pass`, `proxy_pass_websocket`): upstream header
  construction for the HTTP relay and the control flow of the WebSocket relay.

Modelling conventions:
- Python dicts become association lists `List (String, _)` with the usual
  insertion-order semantics (`dictGet` / `dictSet` / `dictPop`), matching how
  the code relies on dict iteration order for registry order and `min`.
- Latencies are measured in milliseconds; the code stores floats, the claims
  only compare them, so they are embedded as `Nat`.
- `HealthChecker.last_update`, `HealthChecker.target_configs` and the public
  `is_personalized` attribute are read by `load_balance.py` but defined in the
  packaged `health_check.py`, which is absent from the sources (only the
  top-level `src/health_check.py` is present). Those three pieces are modelled
  from the spec (LastUpdateTimestamp advancing on each completed probe cycle;
  per-origin UpstreamConfig records created at construction); everything else
  is translated from `src/health_check.py`.
- `request.client.host`, URL parsing (`urlparse`) and the transport clients
  are external collaborators; `urlparse`-based origin extraction is passed in
  as an abstract `parse : String → String` parameter.
-/

namespace FRProxy

/-! ## Python dict operations on association lists -/

/-- `d.get(k)`: first binding of key `k`, if any. -/
def dictGet {α : Type} (d : List (String × α)) (k : String) : Option α :=
  (d.find? (fun p => p.1 == k)).map Prod.snd

/-- `d[k] = v`: replace the value in place if the key is present (keeping its
insertion position), otherwise append the new binding at the end. -/
def dictSet {α : Type} : List (String × α) → String → α → List (String × α)
  | [], k, v => [(k, v)]
  | p :: rest, k, v =>
      if p.1 == k then (k, v) :: rest else p :: dictSet rest k v

/-- `d.pop(k, None)`: remove the binding for key `k`. -/
def dictPop {α : Type} (d : List (String × α)) (k : String) : List (String × α) :=
  d.filter (fun p => p.1 != k)

/-- `k in d`. -/
def dictContains {α : Type} (d : List (String × α)) (k : String) : Bool :=
  (d.find? (fun p => p.1 == k)).isSome

/-! ## Python `min(d, key=lambda t: d[t])`

`min` over the keys of a dict scans entries in insertion order, switching the
running minimum only on a strictly smaller value, so the first key attaining
the minimum wins ties. -/

/-- The running fold of Python `min` with the current best entry `(k, v)`. -/
def minFold (k : String) (v : Nat) : List (String × Nat) → String × Nat
  | [] => (k, v)
  | (k2, v2) :: rest =>
      if v2 < v then minFold k2 v2 rest else minFold k v rest

/-- `min(d.items(), key=value)` returning the full entry, `none` on empty. -/
def minKeyEntry : List (String × Nat) → Option (String × Nat)
  | [] => none
  | (k, v) :: rest => some (minFold k v rest)

/-- `min(d, key=lambda t: d[t]) if d else None`. -/
def minKey (l : List (String × Nat)) : Option String :=
  (minKeyEntry l).map Prod.fst

/-! ## HealthChecker (`src/health_check.py`) -/

/-- A configuration record (Python dict) from a personalized targets list:
`{"host": ..., "pingpath": ..., "maxrequests": ...}` with optional keys. -/
structure TRec where
  host : Option String
  pingpath : Option String
  maxrequests : Option Nat
  deriving DecidableEq

/-- An element of the `targets` constructor argument: an address string or a
configuration record. -/
inductive Target where
  | addr : String → Target
  | record : TRec → Target
  deriving DecidableEq

/-- The configuration errors raised by `HealthChecker.__init__`
(`ValueError` / `TypeError` / `KeyError`), with the offending index where the
message carries one. -/
inductive InitError where
  | emptyTargets : InitError
  | badInterval : InitError
  | badTimeout : InitError
  | mixedTypes : Nat → InitError
  | missingHost : Nat → InitError
  deriving DecidableEq

/-- State of a `HealthChecker`. `status` maps each origin to `some latencyMs`
(up) or `none` (the Python `False` down sentinel). `last_update` and
`target_configs` are modelled from the spec (see the file header): the
packaged `health_check.py` defining them is missing from the sources. -/
structure HealthChecker where
  interval : Nat
  timeout : Nat
  targets_map : List (String × String)
  is_personalized : Bool
  global_ping_path : String
  targets : List String
  status : List (String × Option Nat)
  last_update : Nat
  target_configs : List (String × TRec)

/-- The per-index normalization loop of `HealthChecker.__init__`: enforces the
type of the first element on every element (TypeError with the index on a
mismatch), requires `host` on records (KeyError with the index), and fills the
`{origin: pingpath}` map (last occurrence wins, first insertion position kept)
plus the per-origin config records (modelled from the spec). -/
def initLoop (parse : String → String) (isDict : Bool) :
    List Target → Nat → List (String × String) → List (String × TRec) →
    Except InitError (List (String × String) × List (String × TRec))
  | [], _, m, cfg => .ok (m, cfg)
  | .addr s :: rest, idx, m, cfg =>
      if isDict then .error (.mixedTypes idx)
      else initLoop parse false rest (idx + 1) (dictSet m (parse s) "/") cfg
  | .record r :: rest, idx, m, cfg =>
      if isDict then
        match r.host with
        | none => .error (.missingHost idx)
        | some hs =>
            initLoop parse true rest (idx + 1)
              (dictSet m (parse hs) (r.pingpath.getD "/"))
              (dictSet cfg (parse hs) r)
      else .error (.mixedTypes idx)

/-- `HealthChecker.__init__`: validation, normalization, and the initial
all-up snapshot `{host: 0.0 for host in targets}`. -/
def HealthChecker.init (parse : String → String) (targets : List Target)
    (interval timeout : Nat) : Except InitError HealthChecker :=
  if targets.isEmpty then .error .emptyTargets
  else if interval < 1 then .error .badInterval
  else if timeout < 1 then .error .badTimeout
  else
    let isDict := match targets.head? with
      | some (.record _) => true
      | _ => false
    match initLoop parse isDict targets 0 [] [] with
    | .error e => .error e
    | .ok (m, cfg) =>
        .ok { interval := interval
              timeout := timeout
              targets_map := m
              is_personalized := isDict
              global_ping_path := "/"
              targets := m.map Prod.fst
              status := (m.map Prod.fst).map (fun h => (h, some 0))
              last_update := 0
              target_configs := cfg }

/-- Outcome of one probe of one origin, as seen by `_check_target`:
either the HEAD request resolved within the client timeout (with a status code
and the wall-clock elapsed milliseconds), or it raised (timeout, connection
failure, ...). -/
inductive ProbeResult where
  | completed : Nat → Nat → ProbeResult
  | failed : ProbeResult
  deriving DecidableEq

/-- The status `_check_target` records for a probe outcome: the latency when
the response arrived with a status code below 400, the down sentinel
otherwise; exceptions are swallowed (this function is total) and logged. -/
def probeStatus : ProbeResult → Option Nat
  | .completed code elapsed => if code < 400 then some elapsed else none
  | .failed => none

/-- `HealthChecker._check_target`: update one origin's status entry. -/
def HealthChecker.check_target (c : HealthChecker) (host : String)
    (r : ProbeResult) : HealthChecker :=
  { c with status := dictSet c.status host (probeStatus r) }

/-- `HealthChecker.check_all`: probe every origin (each probe writes only its
own key, so the concurrent gather is the fold below) and, on cycle completion,
advance LastUpdateTimestamp to now (modelled from the spec, see header). -/
def HealthChecker.check_all (c : HealthChecker) (probe : String → ProbeResult)
    (now : Nat) : HealthChecker :=
  let c2 := c.targets.foldl (fun acc h => acc.check_target h (probe h)) c
  { c2 with last_update := now }

/-- `HealthChecker.get_healthy_targets`: targets whose status is not the down
sentinel, in registry order. -/
def HealthChecker.get_healthy_targets (c : HealthChecker) : List String :=
  c.targets.filter (fun h => dictGet c.status h != some none)

/-- `HealthChecker.get_response_times`: `{origin: latencyMs}` over up origins,
in status (= registry) order. -/
def HealthChecker.get_response_times (c : HealthChecker) :
    List (String × Nat) :=
  c.status.filterMap (fun p => p.2.map (fun v => (p.1, v)))

/-- `HealthChecker.get_fastest`: Python `min` over the response-times dict, or
`None` when it is empty. -/
def HealthChecker.get_fastest (c : HealthChecker) : Option String :=
  minKey c.get_response_times

/-! ## LoadBalancer (`src/load_balance.py`) -/

/-- The `servers` constructor argument: a static origin list or a wrapped
`HealthChecker`. -/
inductive Servers where
  | staticL : List String → Servers
  | health : HealthChecker → Servers

/-- State of a `LoadBalancer`. `request_counts` and `limits_map` are Python
dicts read through `.get(h, 0)` / `.get(h)`, hence embedded as total
functions with those defaults. -/
structure LoadBalancer where
  servers : Servers
  index : Nat
  request_counts : String → Nat
  last_health_update : Nat
  limits_map : String → Option Nat
  global_max_requests : Option Nat

/-- `LoadBalancer.__init__`. In health mode the per-origin limits are read
from the checker's per-origin config records (`maxrequests`). -/
def LoadBalancer.make (servers : Servers) : LoadBalancer :=
  { servers := servers
    index := 0
    request_counts := fun _ => 0
    last_health_update := 0
    limits_map := fun h =>
      match servers with
      | .staticL _ => none
      | .health hc => (dictGet hc.target_configs h).bind (fun r => r.maxrequests)
    global_max_requests := none }

/-- The window-reset prologue of `_get_best_healthy`: if the checker finished
a new probe cycle since last observed, zero every request counter and record
the new timestamp. -/
def resetIfNewCycle (lb : LoadBalancer) (hc : HealthChecker) : LoadBalancer :=
  if lb.last_health_update < hc.last_update then
    { lb with request_counts := fun _ => 0, last_health_update := hc.last_update }
  else lb

/-- `LoadBalancer._get_best_healthy`: window reset, then the fastest healthy
origin among those under their request limit (per-origin limits in
personalized mode, the global limit otherwise), or `none`. -/
def getBestHealthy (lb : LoadBalancer) (hc : HealthChecker) :
    Option String × LoadBalancer :=
  let lb2 := resetIfNewCycle lb hc
  let r := hc.get_response_times
  let available := r.filter (fun p =>
    match (if hc.is_personalized then lb2.limits_map p.1
           else lb2.global_max_requests) with
    | none => true
    | some lim => lb2.request_counts p.1 < lim)
  (minKey available, lb2)

/-- `LoadBalancer.peek`: the same computation as `pick` without the increment.
In health mode this still runs `_get_best_healthy`, window reset included. -/
def LoadBalancer.peek (lb : LoadBalancer) : Option String × LoadBalancer :=
  match lb.servers with
  | .health hc => getBestHealthy lb hc
  | .staticL l =>
      if l.isEmpty then (none, lb)
      else (l[lb.index]?, lb)

/-- `LoadBalancer.get` (the spec's `pick()`): health mode increments the
chosen origin's counter (guarded by Python truthiness, so an empty-string
origin is returned but not counted); static mode returns the cursor's origin
and advances the cursor modulo the list length. An out-of-range cursor is
embedded as `none` (Python would raise IndexError; `set_index` keeps the
cursor in range). -/
def LoadBalancer.get (lb : LoadBalancer) : Option String × LoadBalancer :=
  match lb.servers with
  | .health hc =>
      match getBestHealthy lb hc with
      | (some b, lb2) =>
          if b = "" then (some b, lb2)
          else (some b,
            { lb2 with request_counts := fun h =>
                if h = b then lb2.request_counts b + 1 else lb2.request_counts h })
      | (none, lb2) => (none, lb2)
  | .staticL l =>
      if l.isEmpty then (none, lb)
      else (l[lb.index]?, { lb with index := (lb.index + 1) % l.length })

/-- `n` consecutive `get()` calls, collecting the picks. -/
def LoadBalancer.getN : LoadBalancer → Nat → List (Option String) × LoadBalancer
  | lb, 0 => ([], lb)
  | lb, n + 1 =>
      match lb.get with
      | (r, lb2) =>
          match lb2.getN n with
          | (rs, lb3) => (r :: rs, lb3)

/-- A static-mode balancer at cursor `i` (fresh `LoadBalancer(servers_list)`
followed by `set_index(i)`). -/
def mkStatic (l : List String) (i : Nat) : LoadBalancer :=
  { servers := .staticL l
    index := i
    request_counts := fun _ => 0
    last_health_update := 0
    limits_map := fun _ => none
    global_max_requests := none }

/-- The request-counter update performed by a health-mode `get()`:
`self._request_counts[best] = self._request_counts.get(best, 0) + 1`. -/
def bump (cnt : String → Nat) (b : String) : String → Nat :=
  fun h2 => if h2 = b then cnt b + 1 else cnt h2

/-- A health-mode balancer in an arbitrary mid-lifetime state: wrapped
checker, current counters, last-observed timestamp and per-origin limits. -/
def mkHealth (hc : HealthChecker) (counts : String → Nat) (lu : Nat)
    (lims : String → Option Nat) : LoadBalancer :=
  { servers := .health hc
    index := 0
    request_counts := counts
    last_health_update := lu
    limits_map := lims
    global_max_requests := none }

/-- The sequence of origins `k` consecutive static `get()` calls return when
started at cursor `i`. -/
def pickSeq (l : List String) : Nat → Nat → List (Option String)
  | _, 0 => []
  | i, k + 1 => l[i]? :: pickSeq l ((i + 1) % l.length) k

/-! ## HTTP relay (`src/proxy_pass.py` and `LoadBalancer.proxy_pass`) -/

/-- Headers as a Python dict (Starlette hands `dict(request.headers)` over
with lowercase keys; the code then mutates it case-sensitively). -/
abbrev Headers := List (String × String)

/-- ASCII lowercasing of a header name over its character list (header names
are ASCII; a kernel-computable `str.lower()`). The server framework hands
`dict(request.headers)` over with lowercased keys. -/
def asciiLower (s : String) : String :=
  String.mk (s.data.map Char.toLower)

/-- The hop-by-hop header set of `proxy_pass.py` (applied by the code to the
relayed response headers only). -/
def EXCLUDED_HEADERS : List String :=
  ["connection", "keep-alive", "proxy-authenticate", "proxy-authorization",
   "te", "trailers", "transfer-encoding", "upgrade"]

/-- The upstream request headers built by `proxy_pass` on the default path
(no `override_headers`, no `additional_headers`): copy the inbound headers,
add X-Real-IP, append to or set X-Forwarded-For, set X-Forwarded-Proto and
X-Forwarded-Host, then pop `host` and `connection`. -/
def buildUpstreamHeaders (inbound : Headers) (clientHost : String)
    (scheme : String) (netloc : String) : Headers :=
  let h1 := dictSet inbound "X-Real-IP" clientHost
  let h2 :=
    if dictContains h1 "X-Forwarded-For" then
      dictSet h1 "X-Forwarded-For"
        ((dictGet h1 "X-Forwarded-For").getD "" ++ ", " ++ clientHost)
    else
      dictSet h1 "X-Forwarded-For" clientHost
  let h3 := dictSet h2 "X-Forwarded-Proto" scheme
  let h4 := dictSet h3 "X-Forwarded-Host" ((dictGet h3 "host").getD netloc)
  dictPop (dictPop h4 "host") "connection"

/-- Outcome of `LoadBalancer.proxy_pass` as far as target resolution goes:
either an immediate response with the given status code and no upstream
attempt, or an upstream request to the picked target for the given path. -/
inductive HttpOutcome where
  | immediateResponse : Nat → HttpOutcome
  | forwarded : String → String → HttpOutcome
  deriving DecidableEq

/-- `LoadBalancer.proxy_pass`: pick a target; on `None` (or an empty string,
which is also falsy) answer 503 Service Unavailable at once, otherwise
forward to the target. Total: no exception escapes target resolution. -/
def LoadBalancer.proxy_pass (lb : LoadBalancer) (path : String) :
    HttpOutcome × LoadBalancer :=
  match lb.get with
  | (none, lb2) => (.immediateResponse 503, lb2)
  | (some target, lb2) =>
      if target = "" then (.immediateResponse 503, lb2)
      else (.forwarded target path, lb2)

/-! ## WebSocket relay (`proxy_pass_websocket`) -/

/-- Result of `websockets.connect(url, ...)`: an open outbound connection
with its negotiated subprotocol, or a raised connection error. -/
inductive ConnectOutcome where
  | ok : Option String → ConnectOutcome
  | err : ConnectOutcome
  deriving DecidableEq

/-- Observable actions performed on the inbound WebSocket connection. -/
inductive WSAction where
  | accept : Option String → WSAction
  | startLoops : WSAction
  | close : Nat → WSAction
  deriving DecidableEq

/-- Default close code of Starlette's `websocket.close()` when called without
arguments (normal closure), as in the final cleanup of
`proxy_pass_websocket`. -/
def STARLETTE_DEFAULT_CLOSE_CODE : Nat := 1000

/-- The `try` body of `proxy_pass_websocket` after the connect attempt:
`websockets.connect` raising skips accept and the bidirectional loops
(returning the raised flag); on success the inbound side is accepted with the
negotiated subprotocol and both shuttle loops are started. -/
def wsTryBody (connect : ConnectOutcome) (log : List WSAction) :
    List WSAction × Bool :=
  match connect with
  | .err => (log, true)
  | .ok sub => (log ++ [.accept sub, .startLoops], false)

/-- `proxy_pass_websocket` (`src/proxy_pass.py`): run the try body; the
`except` clause logs and re-raises, and the `finally` clause always calls
`websocket.close()` with its default (normal-closure) code. Returns the
action log on the inbound connection and whether the error propagated. -/
def proxy_pass_websocket (connect : ConnectOutcome) : List WSAction × Bool :=
  match wsTryBody connect [] with
  | (log, raised) => (log ++ [.close STARLETTE_DEFAULT_CLOSE_CODE], raised)

/-- `LoadBalancer.proxy_pass_websocket`: pick a target; on `None` (or the
falsy empty string) close the inbound connection with the internal-error code
1011 and never attempt the outbound connect; otherwise run the relay. -/
def LoadBalancer.proxy_pass_websocket (lb : LoadBalancer)
    (connect : ConnectOutcome) : (List WSAction × Bool) × LoadBalancer :=
  match lb.get with
  | (none, lb2) => (([.close 1011], false), lb2)
  | (some target, lb2) =>
      if target = "" then (([.close 1011], false), lb2)
      else (FRProxy.proxy_pass_websocket connect, lb2)

/-! ## Basic lemmas about the dict operations -/

theorem dictGet_nil {α : Type} (k : String) :
    dictGet ([] : List (String × α)) k = none := rfl

theorem dictGet_cons {α : Type} (p : String × α) (d : List (String × α))
    (k : String) :
    dictGet (p :: d) k = if p.1 == k then some p.2 else dictGet d k := by
  by_cases h : p.1 = k
  · simp [dictGet, List.find?, h]
  · have hb : (p.1 == k) = false := by simpa using h
    simp [dictGet, List.find?, hb]

theorem dictGet_dictSet_self {α : Type} (d : List (String × α)) (k : String)
    (v : α) : dictGet (dictSet d k v) k = some v := by
  induction d with
  | nil => simp [dictSet, dictGet, List.find?]
  | cons p rest ih =>
      by_cases h : p.1 = k
      · simp [dictSet, h, dictGet_cons]
      · simp [dictSet, h, dictGet_cons, ih]

theorem dictGet_dictSet_ne {α : Type} (d : List (String × α)) (k k2 : String)
    (v : α) (hne : k ≠ k2) : dictGet (dictSet d k2 v) k = dictGet d k := by
  induction d with
  | nil => simp [dictSet, dictGet_cons, dictGet_nil, Ne.symm hne]
  | cons p rest ih =>
      by_cases h : p.1 = k2
      · simp [dictSet, h, dictGet_cons, Ne.symm hne]
      · simp [dictSet, h, dictGet_cons, ih]

theorem mem_dictSet {α : Type} (d : List (String × α)) (k : String) (v : α)
    (p : String × α) (hp : p ∈ dictSet d k v) : p.1 = k ∨ p ∈ d := by
  induction d with
  | nil =>
      simp [dictSet] at hp
      subst hp; exact Or.inl rfl
  | cons q rest ih =>
      by_cases h : q.1 = k
      · simp [dictSet, h] at hp
        rcases hp with hp | hp
        · subst hp; exact Or.inl rfl
        · exact Or.inr (List.mem_cons_of_mem _ hp)
      · simp [dictSet, h] at hp
        rcases hp with hp | hp
        · exact Or.inr (by simp [hp])
        · rcases ih hp with h2 | h2
          · exact Or.inl h2
          · exact Or.inr (List.mem_cons_of_mem _ h2)

theorem mem_dictPop {α : Type} (d : List (String × α)) (k : String)
    (p : String × α) (hp : p ∈ dictPop d k) : p ∈ d ∧ p.1 ≠ k := by
  have := List.mem_filter.mp hp
  refine ⟨this.1, ?_⟩
  simpa using this.2

theorem dictGet_dictPop_ne {α : Type} (d : List (String × α)) (k k2 : String)
    (hne : k ≠ k2) : dictGet (dictPop d k2) k = dictGet d k := by
  induction d with
  | nil => rfl
  | cons p rest ih =>
      by_cases h : p.1 = k2
      · have hpk : (p.1 == k) = false := by
          simp only [beq_eq_false_iff_ne, ne_eq]
          rw [h]; exact Ne.symm hne
        have hb : (p.1 != k2) = false := by simp [h]
        simp only [dictPop] at ih ⊢
        rw [List.filter_cons]
        simp only [hb, Bool.false_eq_true, if_false]
        rw [ih, dictGet_cons]
        simp [hpk]
      · have hb : (p.1 != k2) = true := by simp [h]
        simp only [dictPop] at ih ⊢
        rw [List.filter_cons]
        simp only [hb, if_true]
        rw [dictGet_cons, dictGet_cons, ih]

theorem dictContains_eq {α : Type} (d : List (String × α)) (k : String) :
    dictContains d k = (dictGet d k).isSome := by
  rcases h : d.find? (fun p => p.1 == k) with _ | p <;>
    simp [dictContains, dictGet, h]

theorem dictGet_map_const {α : Type} (l : List String) (k : String) (v : α) :
    dictGet (l.map (fun h => (h, v))) k = if k ∈ l then some v else none := by
  induction l with
  | nil => simp [dictGet_nil]
  | cons a rest ih =>
      by_cases h : a = k
      · simp [dictGet_cons, h]
      · simp [dictGet_cons, h, ih, Ne.symm h]

/-! ## Lemmas about the Python min fold -/

/-- Where `minFold` lands: the result splits the scanned list (accumulator
included) into a strictly greater prefix and a greater-or-equal suffix, so the
first minimum wins ties. -/
theorem minFold_split : ∀ (l : List (String × Nat)) (k : String) (v : Nat)
    (km : String) (vm : Nat), minFold k v l = (km, vm) →
    ∃ l1 l2, (k, v) :: l = l1 ++ (km, vm) :: l2 ∧ (∀ p ∈ l1, vm < p.2) ∧
      (∀ p ∈ l2, vm ≤ p.2)
  | [], k, v, km, vm, h => by
      obtain ⟨rfl, rfl⟩ : k = km ∧ v = vm := by
        simpa [minFold, Prod.ext_iff] using h
      exact ⟨[], [], by simp, by simp, by simp⟩
  | (qk, qv) :: rest, k, v, km, vm, h => by
      by_cases hq : qv < v
      · have h2 : minFold qk qv rest = (km, vm) := by
          simpa [minFold, hq] using h
        obtain ⟨l1, l2, heq, hlt, hle⟩ := minFold_split rest qk qv km vm h2
        have hvq : vm ≤ qv := by
          rcases l1 with _ | ⟨p0, l1t⟩
          · obtain ⟨h3, -⟩ := by simpa [List.cons.injEq, Prod.ext_iff] using heq
            exact le_of_eq h3.2.symm
          · have hp0 : p0 = (qk, qv) := by
              have := congrArg List.head? heq
              simpa using this.symm
            have := hlt p0 (List.mem_cons_self _ _)
            rw [hp0] at this
            exact le_of_lt this
        refine ⟨(k, v) :: l1, l2, ?_, ?_, hle⟩
        · simpa using congrArg (List.cons (k, v)) heq
        · intro p hp
          rcases List.mem_cons.mp hp with hp | hp
          · subst hp
            exact lt_of_le_of_lt hvq hq
          · exact hlt p hp
      · have h2 : minFold k v rest = (km, vm) := by
          simpa [minFold, hq] using h
        obtain ⟨l1, l2, heq, hlt, hle⟩ := minFold_split rest k v km vm h2
        rcases l1 with _ | ⟨p0, l1t⟩
        · obtain ⟨h3, h4⟩ : ((k, v) = (km, vm)) ∧ rest = l2 := by
            simpa [List.cons.injEq] using heq
          obtain ⟨rfl, rfl⟩ : km = k ∧ vm = v := by
            simpa [Prod.ext_iff] using h3.symm
          refine ⟨[], (qk, qv) :: l2, by simp [h4], by simp, ?_⟩
          intro p hp
          rcases List.mem_cons.mp hp with hp | hp
          · subst hp
            exact le_of_not_lt hq
          · exact hle p hp
        · obtain ⟨h3, h4⟩ : (k, v) = p0 ∧ rest = l1t ++ (km, vm) :: l2 := by
            simpa [List.cons.injEq] using heq
        -- note: prefix gains the skipped entry (qk, qv) in second position
          have hvmv : vm < v := by
            have := hlt p0 (List.mem_cons_self _ _)
            rw [← h3] at this
            exact this
          refine ⟨(k, v) :: (qk, qv) :: l1t, l2, by simp [h4], ?_, hle⟩
          intro p hp
          rcases List.mem_cons.mp hp with hp | hp
          · subst hp; exact hvmv
          · rcases List.mem_cons.mp hp with hp | hp
            · subst hp
              exact lt_of_lt_of_le hvmv (le_of_not_lt hq)
            · exact hlt p (List.mem_cons_of_mem _ hp)

/-- Specification of `minKeyEntry`: it returns an entry of the list whose
value is strictly below every earlier entry and at most every later entry. -/
theorem minKeyEntry_split (l : List (String × Nat)) (k : String) (v : Nat)
    (h : minKeyEntry l = some (k, v)) :
    ∃ l1 l2, l = l1 ++ (k, v) :: l2 ∧ (∀ p ∈ l1, v < p.2) ∧
      (∀ p ∈ l2, v ≤ p.2) := by
  match l with
  | [] => simp [minKeyEntry] at h
  | (k0, v0) :: rest =>
      have h2 : minFold k0 v0 rest = (k, v) := by
        simpa [minKeyEntry] using h
      exact minFold_split rest k0 v0 k v h2

theorem minKeyEntry_isSome (l : List (String × Nat)) (h : l ≠ []) :
    (minKeyEntry l).isSome := by
  match l with
  | [] => exact absurd rfl h
  | p :: rest => simp [minKeyEntry]

/-- On a list of all-equal values the fold never switches. -/
theorem minFold_const (l : List (String × Nat)) (k : String) (v : Nat)
    (h : ∀ p ∈ l, ¬ p.2 < v) : minFold k v l = (k, v) := by
  induction l with
  | nil => rfl
  | cons q rest ih =>
      have hq : ¬ q.2 < v := h q (List.mem_cons_self _ _)
      simp only [minFold, if_neg hq]
      exact ih (fun p hp => h p (List.mem_cons_of_mem _ hp))

/-! ## Lemmas about the probe cycle -/

/-- Folding the per-target probes leaves keys outside the probed list
untouched: each probe writes only its own status entry. -/
theorem checkFold_not_mem (probe : String → ProbeResult) (l : List String)
    (c : HealthChecker) (h : String) (hh : h ∉ l) :
    dictGet ((l.foldl (fun acc x => acc.check_target x (probe x)) c).status) h
      = dictGet c.status h := by
  induction l generalizing c with
  | nil => rfl
  | cons a rest ih =>
      simp only [List.foldl_cons]
      have hna : h ≠ a := fun e => hh (e ▸ List.mem_cons_self a rest)
      rw [ih _ (fun hm => hh (List.mem_cons_of_mem _ hm))]
      simp [HealthChecker.check_target, dictGet_dictSet_ne _ _ _ _ hna]

/-- After the probe fold, every probed host's status entry is exactly the
recorded outcome of its own probe. -/
theorem checkFold_mem (probe : String → ProbeResult) (l : List String)
    (c : HealthChecker) (h : String) (hh : h ∈ l) :
    dictGet ((l.foldl (fun acc x => acc.check_target x (probe x)) c).status) h
      = some (probeStatus (probe h)) := by
  induction l generalizing c with
  | nil => cases hh
  | cons a rest ih =>
      simp only [List.foldl_cons]
      by_cases hm : h ∈ rest
      · exact ih _ hm
      · have ha : h = a := by
          rcases List.mem_cons.mp hh with e | e
          · exact e
          · exact absurd e hm
        subst ha
        rw [checkFold_not_mem probe rest _ h hm]
        simp [HealthChecker.check_target, dictGet_dictSet_self]

theorem check_all_statusGet (c : HealthChecker) (probe : String → ProbeResult)
    (now : Nat) (h : String) (hh : h ∈ c.targets) :
    dictGet ((c.check_all probe now).status) h
      = some (probeStatus (probe h)) := by
  simpa [HealthChecker.check_all] using checkFold_mem probe c.targets c h hh

theorem checkFold_fields (probe : String → ProbeResult) (l : List String)
    (c : HealthChecker) :
    (l.foldl (fun acc x => acc.check_target x (probe x)) c).is_personalized
        = c.is_personalized ∧
      (l.foldl (fun acc x => acc.check_target x (probe x)) c).targets
        = c.targets := by
  induction l generalizing c with
  | nil => exact ⟨rfl, rfl⟩
  | cons a rest ih =>
      simpa [HealthChecker.check_target] using ih (c.check_target a (probe a))

theorem check_all_is_personalized (c : HealthChecker)
    (probe : String → ProbeResult) (now : Nat) :
    (c.check_all probe now).is_personalized = c.is_personalized := by
  simpa [HealthChecker.check_all] using (checkFold_fields probe c.targets c).1

theorem check_all_last_update (c : HealthChecker)
    (probe : String → ProbeResult) (now : Nat) :
    (c.check_all probe now).last_update = now := rfl

/-! ## Lemmas about the snapshot queries -/

/-- The keys of the response-times dict appear in status (registry) order. -/
theorem response_times_keys_sublist (s : List (String × Option Nat)) :
    ((s.filterMap (fun p => p.2.map (fun v => (p.1, v)))).map Prod.fst).Sublist
      (s.map Prod.fst) := by
  induction s with
  | nil => simp
  | cons p rest ih =>
      cases hp : p.2 with
      | none =>
          simp only [List.filterMap_cons, hp, Option.map_none, List.map_cons]
          exact ih.cons _
      | some v =>
          simp only [List.filterMap_cons, hp, Option.map_some, List.map_cons]
          exact ih.cons₂ _

theorem mem_response_times (c : HealthChecker) (k : String) (v : Nat)
    (h : (k, some v) ∈ c.status) : (k, v) ∈ c.get_response_times :=
  List.mem_filterMap.mpr ⟨(k, some v), h, by simp⟩

/-! ## Lemmas about static round-robin -/

/-- One `get()` step in static mode: the cursor's origin, cursor advanced
modulo the length. -/
theorem get_static (l : List String) (i : Nat) (hl : l ≠ []) :
    (mkStatic l i).get = (l[i]?, mkStatic l ((i + 1) % l.length)) := by
  simp [LoadBalancer.get, mkStatic, List.isEmpty_iff, hl]

theorem getN_static (l : List String) (hl : l ≠ []) :
    ∀ (k i : Nat), i < l.length →
      (mkStatic l i).getN k = (pickSeq l i k, mkStatic l ((i + k) % l.length))
  | 0, i, hi => by
      simp [LoadBalancer.getN, pickSeq, Nat.mod_eq_of_lt hi]
  | k + 1, i, hi => by
      have hpos : 0 < l.length := List.length_pos.mpr hl
      have hmod : (i + 1) % l.length < l.length := Nat.mod_lt _ hpos
      have ih := getN_static l hl k ((i + 1) % l.length) hmod
      have hidx : ((i + 1) % l.length + k) % l.length
          = (i + (k + 1)) % l.length := by
        rw [Nat.mod_add_mod]
        congr 1
        omega
      simp only [LoadBalancer.getN, get_static l i hl, ih, pickSeq, hidx]

/-- Splitting a run of `get()` calls. -/
theorem getN_add (a : Nat) : ∀ (lb : LoadBalancer) (b : Nat),
    lb.getN (a + b) =
      ((lb.getN a).1 ++ ((lb.getN a).2.getN b).1, ((lb.getN a).2.getN b).2) := by
  induction a with
  | zero => intro lb b; simp [LoadBalancer.getN]
  | succ a ih =>
      intro lb b
      have hab : a + 1 + b = (a + b) + 1 := by omega
      rw [hab]
      rcases hg : lb.get with ⟨r, lb2⟩
      simp only [LoadBalancer.getN, hg, ih lb2 b, List.cons_append]

theorem pickSeq_add (l : List String) (hl : l ≠ []) (a b i : Nat)
    (hi : i < l.length) :
    pickSeq l i (a + b) =
      pickSeq l i a ++ pickSeq l ((i + a) % l.length) b := by
  have hpos : 0 < l.length := List.length_pos.mpr hl
  have h1 := getN_static l hl (a + b) i hi
  have h2 := getN_static l hl a i hi
  have h3 := getN_static l hl b ((i + a) % l.length) (Nat.mod_lt _ hpos)
  have h4 := getN_add a (mkStatic l i) b
  have := congrArg Prod.fst h4
  rw [h1, h2] at this
  simp only at this
  rw [h3] at this
  simpa using this

/-- No-wrap segment: while the cursor stays within the list, the picks are a
contiguous slice. -/
theorem pickSeq_no_wrap (l : List String) :
    ∀ (k i : Nat), i + k ≤ l.length →
      pickSeq l i k = ((l.drop i).take k).map some
  | 0, i, _ => by simp [pickSeq]
  | k + 1, i, hik => by
      have hi : i < l.length := by omega
      have hdrop : l.drop i = l[i] :: l.drop (i + 1) :=
        List.drop_eq_getElem_cons hi
      rw [pickSeq, hdrop]
      simp only [List.take_cons, List.map_cons, List.getElem?_eq_getElem hi]
      refine congrArg _ ?_
      by_cases h1 : i + 1 < l.length
      · rw [Nat.mod_eq_of_lt h1]
        exact pickSeq_no_wrap l k (i + 1) (by omega)
      · have hk : k = 0 := by omega
        subst hk
        simp [pickSeq]

/-- A full cycle of picks starting at cursor `i` is the rotation of the list
at `i`. -/
theorem pickSeq_full (l : List String) (hl : l ≠ []) (i : Nat)
    (hi : i < l.length) :
    pickSeq l i l.length = (l.drop i ++ l.take i).map some := by
  have hpos : 0 < l.length := List.length_pos.mpr hl
  have hsplit : l.length = (l.length - i) + i := by omega
  rw [hsplit, pickSeq_add l hl (l.length - i) i i hi]
  have hfirst : pickSeq l i (l.length - i) = (l.drop i).map some := by
    rw [pickSeq_no_wrap l (l.length - i) i (by omega)]
    rw [List.take_of_length_le (by simp)]
  have hidx : (i + (l.length - i)) % l.length = 0 := by
    have : i + (l.length - i) = l.length := by omega
    rw [this, Nat.mod_self]
  have hsecond : pickSeq l 0 i = (l.take i).map some := by
    rw [pickSeq_no_wrap l i 0 (by omega)]
    simp
  rw [hfirst, hidx, hsecond, List.map_append]

/-! ## Lemmas about health-mode selection -/

/-- The window reset is idempotent within one probe cycle, so
`_get_best_healthy` computes the same from the pre- or post-reset state. -/
theorem getBestHealthy_reset (lb : LoadBalancer) (hc : HealthChecker) :
    getBestHealthy lb hc = getBestHealthy (resetIfNewCycle lb hc) hc := by
  have hidem : resetIfNewCycle (resetIfNewCycle lb hc) hc
      = resetIfNewCycle lb hc := by
    unfold resetIfNewCycle
    by_cases hcc : lb.last_health_update < hc.last_update
    · simp [hcc]
    · simp [hcc]
  unfold getBestHealthy
  rw [hidem]

/-- `get()` in health mode is a function of `_get_best_healthy` alone. -/
theorem get_health_of_getBestHealthy (lb1 lb2 : LoadBalancer)
    (hc1 hc2 : HealthChecker)
    (hs1 : lb1.servers = Servers.health hc1)
    (hs2 : lb2.servers = Servers.health hc2)
    (hgb : getBestHealthy lb1 hc1 = getBestHealthy lb2 hc2) :
    lb1.get = lb2.get := by
  unfold LoadBalancer.get
  rw [hs1, hs2]
  dsimp only
  rw [hgb]

/-- `_get_best_healthy` on an `mkHealth` state within the current window:
the eligible set keeps the up origins that are under their limit (per-origin
limits when personalized, the global limit — here unset — otherwise), the
state is unchanged. -/
theorem getBestHealthy_mkHealth (hc : HealthChecker) (counts : String → Nat)
    (lims : String → Option Nat) (lu : Nat) (hnr : ¬ lu < hc.last_update) :
    getBestHealthy (mkHealth hc counts lu lims) hc
      = (minKey (hc.get_response_times.filter (fun p =>
            match (if hc.is_personalized then lims p.1 else none) with
            | none => true
            | some lim => counts p.1 < lim)),
         mkHealth hc counts lu lims) := by
  have hres : resetIfNewCycle (mkHealth hc counts lu lims) hc
      = mkHealth hc counts lu lims := by
    unfold resetIfNewCycle
    exact if_neg hnr
  unfold getBestHealthy
  rw [hres]
  exact rfl

/-- `get()` on an `mkHealth` state within the current window, fully
characterized: pick the minimum-latency eligible origin and bump its counter
(unless it is the falsy empty string). -/
theorem get_mkHealth (hc : HealthChecker) (counts : String → Nat)
    (lims : String → Option Nat) (lu : Nat) (hnr : ¬ lu < hc.last_update) :
    (mkHealth hc counts lu lims).get
      = (match minKey (hc.get_response_times.filter (fun p =>
            match (if hc.is_personalized then lims p.1 else none) with
            | none => true
            | some lim => counts p.1 < lim)) with
         | some b =>
             if b = "" then (some b, mkHealth hc counts lu lims)
             else (some b, mkHealth hc (bump counts b) lu lims)
         | none => (none, mkHealth hc counts lu lims)) := by
  unfold LoadBalancer.get
  rw [show (mkHealth hc counts lu lims).servers = Servers.health hc from rfl]
  dsimp only
  rw [getBestHealthy_mkHealth hc counts lims lu hnr]
  rcases hm : minKey (hc.get_response_times.filter (fun p =>
      match (if hc.is_personalized then lims p.1 else none) with
      | none => true
      | some lim => counts p.1 < lim)) with _ | b
  · rfl
  · rfl

/-- One health-mode `get()` where the fastest healthy origin `A` carries a
per-origin quota of 2 it has not reached (all other origins unlimited):
`A` is picked and its counter bumped. -/
theorem get_pick_under_quota (hc : HealthChecker) (cnt : String → Nat)
    (lims : String → Option Nat) (lu : Nat) (A : String) (a : Nat)
    (hnr : ¬ lu < hc.last_update)
    (hpers : hc.is_personalized = true)
    (hAne : A ≠ "")
    (hlimA : lims A = some 2)
    (hother : ∀ h2, h2 ≠ A → lims h2 = none)
    (hcnt : cnt A < 2)
    (hfast : minKeyEntry hc.get_response_times = some (A, a)) :
    (mkHealth hc cnt lu lims).get
      = (some A, mkHealth hc (bump cnt A) lu lims) := by
  rw [get_mkHealth hc cnt lims lu hnr]
  have hfil : (hc.get_response_times.filter (fun p =>
      match (if hc.is_personalized then lims p.1 else none) with
      | none => true
      | some lim => cnt p.1 < lim)) = hc.get_response_times := by
    refine List.filter_eq_self.mpr ?_
    intro p hp
    by_cases hpA : p.1 = A
    · simp [hpers, hpA, hlimA, hcnt]
    · simp [hpers, hother p.1 hpA]
  have hminA : minKey hc.get_response_times = some A := by
    unfold minKey
    rw [hfast]
    rfl
  rw [hfil, hminA]
  dsimp only
  rw [if_neg hAne]

/-- One health-mode `get()` where the fastest healthy origin `A` has reached
its quota of 2 (all other origins unlimited): the pick falls through to the
minimum-latency healthy origin other than `A` (or none), and the state stays
an `mkHealth` state over the same checker, window and limits. -/
theorem get_pick_quota_reached (hc : HealthChecker) (cnt : String → Nat)
    (lims : String → Option Nat) (lu : Nat) (A : String)
    (hnr : ¬ lu < hc.last_update)
    (hpers : hc.is_personalized = true)
    (hlimA : lims A = some 2)
    (hother : ∀ h2, h2 ≠ A → lims h2 = none)
    (hcnt : ¬ cnt A < 2) :
    ((mkHealth hc cnt lu lims).get).1
        = minKey (hc.get_response_times.filter (fun p => p.1 != A)) ∧
      ∃ cnt3, ((mkHealth hc cnt lu lims).get).2 = mkHealth hc cnt3 lu lims := by
  rw [get_mkHealth hc cnt lims lu hnr]
  have hfil : (hc.get_response_times.filter (fun p =>
      match (if hc.is_personalized then lims p.1 else none) with
      | none => true
      | some lim => cnt p.1 < lim))
      = hc.get_response_times.filter (fun p => p.1 != A) := by
    refine List.filter_congr ?_
    intro p hp
    by_cases hpA : p.1 = A
    · simp [hpers, hpA, hlimA, hcnt]
    · simp [hpers, hother p.1 hpA, hpA]
  rw [hfil]
  rcases hm : minKey (hc.get_response_times.filter (fun p => p.1 != A))
      with _ | B
  · exact ⟨rfl, cnt, rfl⟩
  · dsimp only
    by_cases hB : B = ""
    · rw [if_pos hB]
      exact ⟨rfl, cnt, rfl⟩
    · rw [if_neg hB]
      exact ⟨rfl, bump cnt B, rfl⟩

/-! ## Lemmas about the normalization loop -/

/-- A string-mode prefix followed by a record fails with a TypeError naming
the record's index. -/
theorem initLoop_addr_mixed (parse : String → String) :
    ∀ (pre : List String) (idx : Nat) (m : List (String × String))
      (cfg : List (String × TRec)) (r : TRec) (rest : List Target),
      initLoop parse false (pre.map Target.addr ++ Target.record r :: rest)
          idx m cfg
        = .error (.mixedTypes (idx + pre.length)) := by
  intro pre
  induction pre with
  | nil => intro idx m cfg r rest; simp [initLoop]
  | cons s pres ih =>
      intro idx m cfg r rest
      simp only [List.map_cons, List.cons_append, initLoop, if_neg,
        Bool.false_eq_true, if_false, List.append_eq]
      rw [ih]
      congr 1
      simp
      omega

/-- A record-mode prefix (each record carrying a host) followed by an address
string fails with a TypeError naming the string's index. -/
theorem initLoop_record_mixed (parse : String → String) :
    ∀ (pre : List TRec), (∀ r ∈ pre, r.host.isSome) →
      ∀ (idx : Nat) (m : List (String × String)) (cfg : List (String × TRec))
        (s : String) (rest : List Target),
        initLoop parse true (pre.map Target.record ++ Target.addr s :: rest)
            idx m cfg
          = .error (.mixedTypes (idx + pre.length)) := by
  intro pre
  induction pre with
  | nil => intro _ idx m cfg s rest; simp [initLoop]
  | cons r pres ih =>
      intro hpre idx m cfg s rest
      obtain ⟨hs, hh⟩ := Option.isSome_iff_exists.mp
        (hpre r (List.mem_cons_self _ _))
      simp only [List.map_cons, List.cons_append, initLoop, hh, if_true,
        List.append_eq]
      rw [ih (fun r2 h2 => hpre r2 (List.mem_cons_of_mem _ h2))]
      congr 1
      simp
      omega

/-- A record-mode prefix (each record carrying a host) followed by a record
with no host fails with a KeyError naming that record's index. -/
theorem initLoop_record_missing (parse : String → String) :
    ∀ (pre : List TRec), (∀ r ∈ pre, r.host.isSome) →
      ∀ (idx : Nat) (m : List (String × String)) (cfg : List (String × TRec))
        (r : TRec), r.host = none →
        ∀ (rest : List Target),
          initLoop parse true (pre.map Target.record ++ Target.record r :: rest)
              idx m cfg
            = .error (.missingHost (idx + pre.length)) := by
  intro pre
  induction pre with
  | nil =>
      intro _ idx m cfg r hr rest
      simp [initLoop, hr]
  | cons q pres ih =>
      intro hpre idx m cfg r hr rest
      obtain ⟨hs, hh⟩ := Option.isSome_iff_exists.mp
        (hpre q (List.mem_cons_self _ _))
      simp only [List.map_cons, List.cons_append, initLoop, hh, if_true,
        List.append_eq]
      rw [ih (fun r2 h2 => hpre r2 (List.mem_cons_of_mem _ h2)) _ _ _ r hr]
      congr 1
      simp
      omega

/-! ## Claim theorems -/

/-- C1: in health-aware mode with a per-origin quota of 2 on origin `A`
(other origins unlimited) while `A` is the fastest healthy origin, three
consecutive `get()` calls within one probe-cycle window (the freshly
completed cycle being observed on the first call) return `A`, then `A` —
`A`'s counter then standing at 2 — and then the next-fastest eligible
origin, i.e. the minimum-latency healthy origin other than `A`, or none;
after a further probe cycle completes (`check_all` advancing the monitor's
LastUpdateTimestamp past the Selector's last-observed value), `A`'s request
counter is reset to zero and `A` is picked again. -/
theorem claim_C1_quota_window
    (hc : HealthChecker) (counts : String → Nat) (lims : String → Option Nat)
    (A : String) (a : Nat) (lu0 : Nat)
    (probe : String → ProbeResult) (now2 a2 : Nat)
    (hpers : hc.is_personalized = true)
    (hAne : A ≠ "")
    (hlimA : lims A = some 2)
    (hother : ∀ h2, h2 ≠ A → lims h2 = none)
    (hnew : lu0 < hc.last_update)
    (hfast : minKeyEntry hc.get_response_times = some (A, a))
    (hnow2 : hc.last_update < now2)
    (hfast2 : minKeyEntry (hc.check_all probe now2).get_response_times
        = some (A, a2)) :
    ((mkHealth hc counts lu0 lims).get).1 = some A ∧
      ((((mkHealth hc counts lu0 lims).get).2).get).1 = some A ∧
      (((((mkHealth hc counts lu0 lims).get).2).get).2).request_counts A = 2 ∧
      ((((((mkHealth hc counts lu0 lims).get).2).get).2).get).1
        = minKey (hc.get_response_times.filter (fun p => p.1 != A)) ∧
      (resetIfNewCycle
          { ((((((mkHealth hc counts lu0 lims).get).2).get).2).get).2 with
              servers := Servers.health (hc.check_all probe now2) }
          (hc.check_all probe now2)).request_counts A = 0 ∧
      (({ ((((((mkHealth hc counts lu0 lims).get).2).get).2).get).2 with
          servers := Servers.health (hc.check_all probe now2) }).get).1
        = some A := by
  have hnr : ¬ hc.last_update < hc.last_update := lt_irrefl _
  have hres0 : resetIfNewCycle (mkHealth hc counts lu0 lims) hc
      = mkHealth hc (fun _ => 0) hc.last_update lims := by
    unfold resetIfNewCycle
    rw [if_pos (show (mkHealth hc counts lu0 lims).last_health_update
      < hc.last_update from hnew)]
    rfl
  have e1 : (mkHealth hc counts lu0 lims).get
      = (mkHealth hc (fun _ => 0) hc.last_update lims).get := by
    refine get_health_of_getBestHealthy _ _ hc hc rfl rfl ?_
    rw [getBestHealthy_reset (mkHealth hc counts lu0 lims) hc, hres0]
  have e1b := get_pick_under_quota hc (fun _ => 0) lims hc.last_update A a hnr
    hpers hAne hlimA hother (by norm_num) hfast
  have e2 := get_pick_under_quota hc (bump (fun _ => 0) A) lims hc.last_update
    A a hnr hpers hAne hlimA hother (by simp [bump]) hfast
  have hcnt2 : ¬ (bump (bump (fun _ => 0) A) A) A < 2 := by simp [bump]
  obtain ⟨e3a, cnt3, e3b⟩ := get_pick_quota_reached hc
    (bump (bump (fun _ => 0) A) A) lims hc.last_update A hnr hpers hlimA
    hother hcnt2
  have hlu2 : (hc.check_all probe now2).last_update = now2 :=
    check_all_last_update hc probe now2
  have hpers2 : (hc.check_all probe now2).is_personalized = true := by
    rw [check_all_is_personalized]
    exact hpers
  have hlb4 : { ((((((mkHealth hc counts lu0 lims).get).2).get).2).get).2 with
        servers := Servers.health (hc.check_all probe now2) }
      = mkHealth (hc.check_all probe now2) cnt3 hc.last_update lims := by
    rw [e1, e1b]
    dsimp only
    rw [e2]
    dsimp only
    rw [e3b]
    rfl
  have hres4 : resetIfNewCycle
      (mkHealth (hc.check_all probe now2) cnt3 hc.last_update lims)
      (hc.check_all probe now2)
      = mkHealth (hc.check_all probe now2) (fun _ => 0)
          (hc.check_all probe now2).last_update lims := by
    unfold resetIfNewCycle
    rw [if_pos (show (mkHealth (hc.check_all probe now2) cnt3 hc.last_update
        lims).last_health_update < (hc.check_all probe now2).last_update by
      rw [hlu2]
      exact hnow2)]
    rfl
  have e4 : (mkHealth (hc.check_all probe now2) cnt3 hc.last_update lims).get
      = (mkHealth (hc.check_all probe now2) (fun _ => 0)
          (hc.check_all probe now2).last_update lims).get := by
    refine get_health_of_getBestHealthy _ _ (hc.check_all probe now2)
      (hc.check_all probe now2) rfl rfl ?_
    rw [getBestHealthy_reset
      (mkHealth (hc.check_all probe now2) cnt3 hc.last_update lims)
      (hc.check_all probe now2), hres4]
  have e4b := get_pick_under_quota (hc.check_all probe now2) (fun _ => 0) lims
    (hc.check_all probe now2).last_update A a2 (lt_irrefl _) hpers2 hAne
    hlimA hother (by norm_num) hfast2
  refine ⟨?_, ?_, ?_, ?_, ?_, ?_⟩
  · rw [e1, e1b]
  · rw [e1, e1b]
    dsimp only
    rw [e2]
  · rw [e1, e1b]
    dsimp only
    rw [e2]
    dsimp only [mkHealth]
    simp [bump]
  · rw [e1, e1b]
    dsimp only
    rw [e2]
    dsimp only
    exact e3a
  · rw [hlb4, hres4]
    rfl
  · rw [hlb4, e4, e4b]

/-- A personalized two-origin checker for the C1 witness: `http://a` is
fastest and carries `maxrequests = 2`. -/
def c1checker : HealthChecker :=
  { interval := 10
    timeout := 10
    targets_map := [("http://a", "/"), ("http://b", "/")]
    is_personalized := true
    global_ping_path := "/"
    targets := ["http://a", "http://b"]
    status := [("http://a", some 5), ("http://b", some 7)]
    last_update := 1
    target_configs :=
      [("http://a", ⟨some "http://a", none, some 2⟩),
       ("http://b", ⟨some "http://b", none, none⟩)] }

/-- The per-origin limits the balancer derives for `c1checker`. -/
def c1lims : String → Option Nat :=
  fun h2 => if h2 = "http://a" then some 2 else none

/-- Witness for C1: on `c1checker`, the first two picks return `http://a`,
the third falls through to the minimum-latency origin other than
`http://a`. -/
theorem claim_C1_quota_window_witness :
    ((mkHealth c1checker (fun _ => 0) 0 c1lims).get).1 = some "http://a" ∧
      ((((mkHealth c1checker (fun _ => 0) 0 c1lims).get).2).get).1
        = some "http://a" ∧
      ((((((mkHealth c1checker (fun _ => 0) 0 c1lims).get).2).get).2).get).1
        = minKey (c1checker.get_response_times.filter
            (fun p => p.1 != "http://a")) := by
  have h := claim_C1_quota_window c1checker (fun _ => 0) c1lims "http://a" 5 0
    (fun _ => ProbeResult.completed 200 3) 2 3 rfl (by decide) (by decide)
    (fun h2 hh => by simp [c1lims, hh]) (by decide) (by decide) (by decide)
    (by decide)
  exact ⟨h.1, h.2.1, h.2.2.2.1⟩

/-- C2: for every monitor state whose status dict is keyed in registry order
(the construction invariant), `get_fastest` returns none exactly when all
origins are down; when some origin is up it returns an up origin `A` whose
latency is strictly below every up origin before it and at most every up
origin after it in the response-times list — i.e. the minimum-latency up
origin, ties broken by registry (insertion) order, the response-times keys
being a sublist of the registry. -/
theorem claim_C2_fastest (c : HealthChecker)
    (hw : c.status.map Prod.fst = c.targets) :
    ((∀ p ∈ c.status, p.2 = none) → c.get_fastest = none) ∧
      ((∃ p ∈ c.status, p.2 ≠ none) → (c.get_fastest).isSome) ∧
      (∀ A, c.get_fastest = some A →
        ∃ a l1 l2, c.get_response_times = l1 ++ (A, a) :: l2 ∧
          (∀ p ∈ l1, a < p.2) ∧ (∀ p ∈ l2, a ≤ p.2)) ∧
      (c.get_response_times.map Prod.fst).Sublist c.targets := by
  refine ⟨?_, ?_, ?_, ?_⟩
  · intro hall
    unfold HealthChecker.get_fastest HealthChecker.get_response_times
    have hnil : c.status.filterMap (fun p => p.2.map (fun v => (p.1, v))) = [] := by
      refine List.filterMap_eq_nil_iff.mpr ?_
      intro p hp
      rw [hall p hp]
      rfl
    rw [hnil]
    rfl
  · rintro ⟨p, hp, hne⟩
    rcases hv : p.2 with _ | v
    · exact absurd hv hne
    · have hpm : (p.1, some v) ∈ c.status := by
        have : (p.1, some v) = p := by
          rw [← hv]
        rw [this]
        exact hp
      have hmem : (p.1, v) ∈ c.get_response_times := mem_response_times c p.1 v hpm
      have hne2 : c.get_response_times ≠ [] := by
        intro e
        rw [e] at hmem
        cases hmem
      unfold HealthChecker.get_fastest minKey
      have hs2 := minKeyEntry_isSome _ hne2
      rcases he : minKeyEntry c.get_response_times with _ | q
      · rw [he] at hs2
        cases hs2
      · rfl
  · intro A hA
    unfold HealthChecker.get_fastest minKey at hA
    rcases he : minKeyEntry c.get_response_times with _ | ⟨k, a⟩
    · rw [he] at hA
      cases hA
    · rw [he] at hA
      have hk : k = A := by simpa using hA
      subst hk
      exact ⟨a, minKeyEntry_split _ _ _ he⟩
  · have hsub := response_times_keys_sublist c.status
    rw [hw] at hsub
    exact hsub

/-- A two-origin checker state with an exact latency tie, for the C2
witness. -/
def c2checker : HealthChecker :=
  { interval := 1
    timeout := 1
    targets_map := [("http://a", "/"), ("http://b", "/")]
    is_personalized := false
    global_ping_path := "/"
    targets := ["http://a", "http://b"]
    status := [("http://a", some 3), ("http://b", some 3)]
    last_update := 0
    target_configs := [] }

/-- Witness for C2: with both origins up at equal latency, `get_fastest`
returns something (and evaluation shows it is the first in registry
order). -/
theorem claim_C2_fastest_witness :
    c2checker.status.map Prod.fst = c2checker.targets ∧
      (c2checker.get_fastest).isSome ∧ c2checker.get_fastest = some "http://a" :=
  ⟨rfl,
    (claim_C2_fastest c2checker rfl).2.1
      ⟨("http://a", some 3), by decide, by decide⟩,
    by decide⟩

/-- A checker state whose monitor has completed a probe cycle the balancer
has not yet observed, for the C4 counterexample. -/
def c4checker : HealthChecker :=
  { interval := 1
    timeout := 1
    targets_map := [("http://x", "/")]
    is_personalized := false
    global_ping_path := "/"
    targets := ["http://x"]
    status := [("http://x", some 5)]
    last_update := 1
    target_configs := [] }

/-- A health-mode balancer with a nonzero request counter and a stale
last-observed timestamp, for the C4 counterexample. -/
def c4balancer : LoadBalancer :=
  mkHealth c4checker (fun _ => 1) 0 (fun _ => none)

/-- C4 counterexample: `peek()` is not always state-preserving. When the
monitor finished a new probe cycle since the balancer last looked,
`peek()` (through `_get_best_healthy`) resets the request counters to zero
and advances the last-observed timestamp: here the counter of origin
`http://x` changes from 1 to 0 and the timestamp from 0 to 1. -/
theorem claim_C4_peek_counterexample :
    ((c4balancer.peek).2.request_counts "http://x" = 0 ∧
        c4balancer.request_counts "http://x" = 1) ∧
      ((c4balancer.peek).2.last_health_update = 1 ∧
        c4balancer.last_health_update = 0) := by decide

/-- C4 amended: `peek()` never advances the round-robin cursor and never
increments a request counter (each counter is either unchanged or reset to
zero by the probe-cycle window reset that `pick()` would equally perform);
in static mode `peek()` changes nothing, and in health-aware mode it changes
nothing whenever no new probe cycle has completed (the monitor's timestamp
not newer than the balancer's last-observed one). Only `pick()` increments
counters. -/
theorem claim_C4_peek_amended (lb : LoadBalancer) :
    ((lb.peek).2.index = lb.index) ∧
      (∀ h, (lb.peek).2.request_counts h = lb.request_counts h ∨
        (lb.peek).2.request_counts h = 0) ∧
      (∀ l, lb.servers = Servers.staticL l → (lb.peek).2 = lb) ∧
      (∀ hc, lb.servers = Servers.health hc →
        hc.last_update ≤ lb.last_health_update → (lb.peek).2 = lb) := by
  rcases hs : lb.servers with l | hc
  · have hpk : (lb.peek).2 = lb := by
      simp only [LoadBalancer.peek, hs]
      by_cases he : l.isEmpty <;> simp [he]
    refine ⟨by rw [hpk], fun h => Or.inl (by rw [hpk]), fun _ _ => hpk, ?_⟩
    intro hc2 hserv
    exact Servers.noConfusion hserv
  · have hpk : (lb.peek).2 = resetIfNewCycle lb hc := by
      simp [LoadBalancer.peek, hs, getBestHealthy]
    by_cases hcc : lb.last_health_update < hc.last_update
    · have hres : resetIfNewCycle lb hc =
          { lb with request_counts := fun _ => 0,
                    last_health_update := hc.last_update } := by
        simp [resetIfNewCycle, hcc]
      refine ⟨by rw [hpk, hres], fun h => Or.inr (by rw [hpk, hres]), ?_, ?_⟩
      · intro l2 hserv
        exact Servers.noConfusion hserv
      · intro hc2 hserv hle
        injection hserv with hserv
        subst hserv
        omega
    · have hres : resetIfNewCycle lb hc = lb := by
        simp [resetIfNewCycle, hcc]
      refine ⟨by rw [hpk, hres], fun h => Or.inl (by rw [hpk, hres]), ?_, ?_⟩
      · intro l2 hserv
        exact Servers.noConfusion hserv
      · intro _ _ _
        rw [hpk, hres]

/-- Witness for C4 (amended) on a static balancer: `peek()` leaves the whole
state unchanged. -/
theorem claim_C4_peek_amended_witness :
    ((mkStatic ["http://a", "http://b"] 0).peek).2
        = mkStatic ["http://a", "http://b"] 0 :=
  (claim_C4_peek_amended (mkStatic ["http://a", "http://b"] 0)).2.2.1
    ["http://a", "http://b"] rfl

/-- C5 counterexample: the claim says the outbound request headers never
contain `transfer-encoding`, but `proxy_pass` pops only `host` and
`connection` from the upstream request headers (the hop-by-hop set
`EXCLUDED_HEADERS` is applied to the relayed response only): an inbound
`transfer-encoding` header is forwarded upstream unchanged. -/
theorem claim_C5_headers_counterexample :
    dictGet (buildUpstreamHeaders [("transfer-encoding", "chunked")]
        "203.0.113.7" "http" "upstream.example") "transfer-encoding"
      = some "chunked" := by decide

/-- C5 amended: for an inbound request relayed with no header override (the
inbound header dict having the lowercase keys the server framework
produces), the outbound headers carry a forwarded-for header equal to the
caller's address (or, had a literally-capitalized X-Forwarded-For key been
present, the inbound value with the caller's address appended), and never
contain `connection` or `host` (case-insensitively); `transfer-encoding` and
the other hop-by-hop request headers are NOT stripped from the outbound
request (the code strips them only from the relayed response). -/
theorem claim_C5_headers_amended (inbound : Headers)
    (clientHost scheme netloc : String)
    (hlc : ∀ p ∈ inbound, asciiLower p.1 = p.1) :
    ((dictGet (buildUpstreamHeaders inbound clientHost scheme netloc)
          "X-Forwarded-For" = some clientHost) ∨
        (∃ orig, dictGet inbound "X-Forwarded-For" = some orig ∧
          dictGet (buildUpstreamHeaders inbound clientHost scheme netloc)
              "X-Forwarded-For" = some (orig ++ ", " ++ clientHost))) ∧
      (∀ p ∈ buildUpstreamHeaders inbound clientHost scheme netloc,
        asciiLower p.1 ≠ "connection" ∧ asciiLower p.1 ≠ "host") := by
  constructor
  · simp only [buildUpstreamHeaders]
    rw [dictGet_dictPop_ne _ _ _ (by decide),
      dictGet_dictPop_ne _ _ _ (by decide),
      dictGet_dictSet_ne _ _ _ _ (by decide),
      dictGet_dictSet_ne _ _ _ _ (by decide)]
    by_cases hc : dictContains (dictSet inbound "X-Real-IP" clientHost)
        "X-Forwarded-For"
    · rw [if_pos hc, dictGet_dictSet_self]
      rw [dictContains_eq] at hc
      obtain ⟨orig, horig⟩ := Option.isSome_iff_exists.mp hc
      refine Or.inr ⟨orig, ?_, ?_⟩
      · rw [← horig]
        exact (dictGet_dictSet_ne inbound _ _ _ (by decide)).symm
      · rw [horig]
        rfl
    · rw [if_neg hc, dictGet_dictSet_self]
      exact Or.inl rfl
  · intro p hp
    simp only [buildUpstreamHeaders] at hp
    obtain ⟨hp2, hne_conn⟩ := mem_dictPop _ _ _ hp
    obtain ⟨hp3, hne_host⟩ := mem_dictPop _ _ _ hp2
    rcases mem_dictSet _ _ _ _ hp3 with hk | hp4
    · rw [hk]
      exact ⟨by decide, by decide⟩
    rcases mem_dictSet _ _ _ _ hp4 with hk | hp5
    · rw [hk]
      exact ⟨by decide, by decide⟩
    have hsplit : ∃ v,
        (if dictContains (dictSet inbound "X-Real-IP" clientHost)
              "X-Forwarded-For" then
          dictSet (dictSet inbound "X-Real-IP" clientHost) "X-Forwarded-For"
            ((dictGet (dictSet inbound "X-Real-IP" clientHost)
                "X-Forwarded-For").getD "" ++ ", " ++ clientHost)
        else
          dictSet (dictSet inbound "X-Real-IP" clientHost) "X-Forwarded-For"
            clientHost)
          = dictSet (dictSet inbound "X-Real-IP" clientHost)
              "X-Forwarded-For" v := by
      by_cases hc : dictContains (dictSet inbound "X-Real-IP" clientHost)
          "X-Forwarded-For"
      · exact ⟨_, if_pos hc⟩
      · exact ⟨_, if_neg hc⟩
    obtain ⟨v, hv⟩ := hsplit
    rw [hv] at hp5
    rcases mem_dictSet _ _ _ _ hp5 with hk | hp6
    · rw [hk]
      exact ⟨by decide, by decide⟩
    rcases mem_dictSet _ _ _ _ hp6 with hk | hp7
    · rw [hk]
      exact ⟨by decide, by decide⟩
    have hl := hlc p hp7
    rw [hl]
    exact ⟨hne_conn, hne_host⟩

/-- An inbound header dict with framework-lowercased keys for the C5
witness. -/
def c5inbound : Headers :=
  [("accept", "text/html"), ("x-forwarded-for", "1.2.3.4"),
   ("host", "front.example")]

/-- Witness for C5 (amended): the surviving inbound `accept` header is
neither `connection` nor `host`. -/
theorem claim_C5_headers_amended_witness :
    (("accept", "text/html")
        ∈ buildUpstreamHeaders c5inbound "203.0.113.7" "http" "up") ∧
      asciiLower ("accept", "text/html").1 ≠ "connection" ∧
      asciiLower ("accept", "text/html").1 ≠ "host" := by
  have happ := (claim_C5_headers_amended c5inbound "203.0.113.7" "http" "up"
    (by decide)).2 ("accept", "text/html") (by decide)
  exact ⟨by decide, happ.1, happ.2⟩

/-- C6: for every origin probed in a cycle, the recorded status after
`check_all` is a latency measurement (equal to the probe's elapsed time) if
and only if the probe resolved within the client timeout with a status code
below 400; on a raised probe (timeout, connection failure) or a status code
of 400 or more, the recorded status is the down sentinel with no latency.
`check_all` and `probeStatus` are total functions: a probe outcome always
yields a recorded status, never a propagated exception. -/
theorem claim_C6_probe_status (c : HealthChecker)
    (probe : String → ProbeResult) (now : Nat) (h : String)
    (hmem : h ∈ c.targets) :
    (∀ lat, dictGet ((c.check_all probe now).status) h = some (some lat) ↔
        ∃ code, probe h = ProbeResult.completed code lat ∧ code < 400) ∧
      (dictGet ((c.check_all probe now).status) h = some none ↔
        probe h = ProbeResult.failed ∨
          ∃ code lat, probe h = ProbeResult.completed code lat ∧ 400 ≤ code) := by
  rw [check_all_statusGet c probe now h hmem]
  rcases hp : probe h with ⟨code, el⟩ | _
  · simp only [probeStatus]
    by_cases hcode : code < 400
    · simp only [if_pos hcode, Option.some.injEq]
      constructor
      · intro lat
        constructor
        · intro he
          exact ⟨code, by rw [he], hcode⟩
        · rintro ⟨code2, he12, -⟩
          injection he12 with h1 h2
      · constructor
        · intro he
          exact Option.noConfusion he
        · rintro (he | ⟨code2, lat2, he12, hge⟩)
          · exact ProbeResult.noConfusion he
          · injection he12 with h1 h2
            subst h1
            omega
    · simp only [if_neg hcode]
      constructor
      · intro lat
        constructor
        · intro he
          exact absurd he (by simp)
        · rintro ⟨code2, he12, hlt⟩
          injection he12 with h1 h2
          subst h1
          exact absurd hlt hcode
      · constructor
        · intro _
          exact Or.inr ⟨code, el, rfl, by omega⟩
        · intro _
          trivial
  · simp only [probeStatus]
    constructor
    · intro lat
      constructor
      · intro he
        exact absurd he (by simp)
      · rintro ⟨code2, he12, -⟩
        exact ProbeResult.noConfusion he12
    · constructor
      · intro _
        exact Or.inl trivial
      · intro _
        trivial

/-- A one-origin checker for the C6 witness. -/
def c6checker : HealthChecker :=
  { interval := 1
    timeout := 1
    targets_map := [("http://u", "/")]
    is_personalized := false
    global_ping_path := "/"
    targets := ["http://u"]
    status := [("http://u", some 0)]
    last_update := 0
    target_configs := [] }

/-- Witness for C6: a probe that resolves with status 200 in 7 ms records a
7 ms latency. -/
theorem claim_C6_probe_status_witness :
    ("http://u" ∈ c6checker.targets) ∧
      (dictGet ((c6checker.check_all
            (fun _ => ProbeResult.completed 200 7) 1).status) "http://u"
          = some (some 7) ↔
        ∃ code, (fun _ => ProbeResult.completed 200 7) "http://u"
            = ProbeResult.completed code 7 ∧ code < 400) :=
  ⟨by decide,
    (claim_C6_probe_status c6checker (fun _ => ProbeResult.completed 200 7) 1
      "http://u" (by decide)).1 7⟩

/-- C7: configuration errors at Health Monitor construction: an empty
upstream list is rejected; a list mixing address strings and configuration
records (in either order) is rejected with a TypeError naming the offending
index; a configuration record missing the `host` field is rejected with a
KeyError naming its index. -/
theorem claim_C7_config_errors (parse : String → String) (i t : Nat)
    (hi : 1 ≤ i) (ht : 1 ≤ t) :
    (HealthChecker.init parse [] i t = .error .emptyTargets) ∧
      (∀ (pre : List String) (r : TRec) (rest : List Target), pre ≠ [] →
        HealthChecker.init parse
            (pre.map Target.addr ++ Target.record r :: rest) i t
          = .error (.mixedTypes pre.length)) ∧
      (∀ (pre : List TRec) (s : String) (rest : List Target), pre ≠ [] →
        (∀ r ∈ pre, r.host.isSome) →
        HealthChecker.init parse
            (pre.map Target.record ++ Target.addr s :: rest) i t
          = .error (.mixedTypes pre.length)) ∧
      (∀ (pre : List TRec) (r : TRec) (rest : List Target),
        (∀ r2 ∈ pre, r2.host.isSome) → r.host = none →
        HealthChecker.init parse
            (pre.map Target.record ++ Target.record r :: rest) i t
          = .error (.missingHost pre.length)) := by
  have h1 : ¬ i < 1 := by omega
  have h2 : ¬ t < 1 := by omega
  refine ⟨by simp [HealthChecker.init], ?_, ?_, ?_⟩
  · rintro (_ | ⟨p, pres⟩) r rest hne
    · exact absurd rfl hne
    · have hl := initLoop_addr_mixed parse (p :: pres) 0 [] [] r rest
      simp only [List.map_cons, List.cons_append, List.length_cons,
        Nat.zero_add] at hl
      unfold HealthChecker.init
      rw [if_neg (by simp), if_neg h1, if_neg h2]
      dsimp only [List.map_cons, List.cons_append, List.head?_cons]
      rw [hl]
      simp
  · rintro (_ | ⟨q, pres⟩) s rest hne hpre
    · exact absurd rfl hne
    · have hl := initLoop_record_mixed parse (q :: pres) hpre 0 [] [] s rest
      simp only [List.map_cons, List.cons_append, List.length_cons,
        Nat.zero_add] at hl
      unfold HealthChecker.init
      rw [if_neg (by simp), if_neg h1, if_neg h2]
      dsimp only [List.map_cons, List.cons_append, List.head?_cons]
      rw [hl]
      simp
  · rintro (_ | ⟨q, pres⟩) r rest hpre hr
    · have hl := initLoop_record_missing parse [] (by simp) 0 [] [] r hr rest
      simp only [List.map_nil, List.nil_append, List.length_nil,
        Nat.zero_add] at hl
      unfold HealthChecker.init
      rw [if_neg (by simp), if_neg h1, if_neg h2]
      dsimp only [List.map_nil, List.nil_append, List.head?_cons]
      rw [hl]
      simp
    · have hl := initLoop_record_missing parse (q :: pres) hpre 0 [] [] r hr rest
      simp only [List.map_cons, List.cons_append, List.length_cons,
        Nat.zero_add] at hl
      unfold HealthChecker.init
      rw [if_neg (by simp), if_neg h1, if_neg h2]
      dsimp only [List.map_cons, List.cons_append, List.head?_cons]
      rw [hl]
      simp

/-- Witness for C7: a string followed by a record, a record followed by a
string, and a record with no host, each rejected at index 1; the empty list
rejected outright. -/
theorem claim_C7_config_errors_witness :
    (HealthChecker.init (fun s => s) [] 2 3 = .error .emptyTargets) ∧
      (HealthChecker.init (fun s => s)
          [Target.addr "http://a", Target.record ⟨some "http://b", none, none⟩]
          2 3 = .error (.mixedTypes 1)) ∧
      (HealthChecker.init (fun s => s)
          [Target.record ⟨some "http://b", none, none⟩, Target.addr "http://a"]
          2 3 = .error (.mixedTypes 1)) ∧
      (HealthChecker.init (fun s => s)
          [Target.record ⟨some "http://b", none, none⟩,
            Target.record ⟨none, some "/ping", some 5⟩]
          2 3 = .error (.missingHost 1)) := by
  have h := claim_C7_config_errors (fun s => s) 2 3 (by omega) (by omega)
  refine ⟨h.1, ?_, ?_, ?_⟩
  · have := h.2.1 ["http://a"] ⟨some "http://b", none, none⟩ []
      (by simp)
    simpa using this
  · have := h.2.2.1 [⟨some "http://b", none, none⟩] "http://a" []
      (by simp) (by simp)
    simpa using this
  · have := h.2.2.2 [⟨some "http://b", none, none⟩] ⟨none, some "/ping", some 5⟩
      [] (by simp) rfl
    simpa using this

/-- C8: whenever the Selector's `pick()` returns none (all origins down, all
quota-exhausted, or empty static list), the HTTP relay entry point responds
with 503 Service Unavailable immediately, makes no upstream request
(`HttpOutcome.immediateResponse` carries no target), and raises no exception
(`proxy_pass` is a total function). -/
theorem claim_C8_no_target_503 (lb : LoadBalancer) (path : String)
    (h : (lb.get).1 = none) :
    (lb.proxy_pass path).1 = HttpOutcome.immediateResponse 503 := by
  rcases hg : lb.get with ⟨t, lb2⟩
  rw [hg] at h
  simp only at h
  subst h
  simp [LoadBalancer.proxy_pass, hg]

/-- Witness for C8 at the empty static list. -/
theorem claim_C8_no_target_503_witness :
    ((mkStatic [] 0).get).1 = none ∧
      ((mkStatic [] 0).proxy_pass "/api").1 = HttpOutcome.immediateResponse 503 :=
  ⟨rfl, claim_C8_no_target_503 (mkStatic [] 0) "/api" rfl⟩

/-- C9 counterexample: when the outbound connect fails, the inbound WebSocket
is closed by the `finally` cleanup with the default (normal-closure) code
1000; no close call carries the internal-error code 1011, contradicting the
claim that the inbound connection is closed with an internal-error close
code. -/
theorem claim_C9_ws_counterexample :
    (proxy_pass_websocket ConnectOutcome.err).1 = [WSAction.close 1000] ∧
      WSAction.close 1011 ∉ (proxy_pass_websocket ConnectOutcome.err).1 := by
  decide

/-- C9 amended: if the outbound connect fails, the inbound connection is
never accepted and neither message-shuttling loop is started; the connect
error is re-raised, and the final cleanup closes the inbound connection with
the default normal-closure code (1000), not an internal-error code (1011 is
used only when the Selector resolves no target, see
`LoadBalancer.proxy_pass_websocket`). -/
theorem claim_C9_ws_amended :
    (proxy_pass_websocket ConnectOutcome.err).1
        = [WSAction.close STARLETTE_DEFAULT_CLOSE_CODE] ∧
      (proxy_pass_websocket ConnectOutcome.err).2 = true ∧
      (∀ sub, WSAction.accept sub ∉ (proxy_pass_websocket ConnectOutcome.err).1) ∧
      WSAction.startLoops ∉ (proxy_pass_websocket ConnectOutcome.err).1 := by
  refine ⟨rfl, rfl, ?_, by decide⟩
  intro sub
  simp [proxy_pass_websocket, wsTryBody, STARLETTE_DEFAULT_CLOSE_CODE]

/-- C3: for a non-empty static origin list of length N and any in-range
starting cursor i, N consecutive `get()` calls return the rotation of the
list at i (so each origin exactly as often as it occurs, in cyclic registry
order; for cursor 0 this is exactly registry order), and the (N+1)th call
wraps around to return the same origin as the first. -/
theorem claim_C3_round_robin (l : List String) (i : Nat) (hi : i < l.length) :
    ((mkStatic l i).getN l.length).1 = (l.drop i ++ l.take i).map some ∧
      (l.drop i ++ l.take i).Perm l ∧
      ((mkStatic l i).getN (l.length + 1)).1
        = (l.drop i ++ l.take i).map some ++ [l[i]?] ∧
      ((l.drop i ++ l.take i).map some).head? = some l[i]? := by
  have hl : l ≠ [] := by
    intro e
    subst e
    simp at hi
  have hpos : 0 < l.length := List.length_pos.mpr hl
  refine ⟨?_, ?_, ?_, ?_⟩
  · rw [getN_static l hl l.length i hi]
    exact pickSeq_full l hl i hi
  · have hperm := @List.perm_append_comm _ (l.drop i) (l.take i)
    rw [List.take_append_drop] at hperm
    exact hperm
  · rw [getN_static l hl (l.length + 1) i hi]
    show pickSeq l i (l.length + 1) = _
    rw [pickSeq_add l hl l.length 1 i hi, pickSeq_full l hl i hi]
    have hidx : (i + l.length) % l.length = i := by
      rw [Nat.add_mod_right]
      exact Nat.mod_eq_of_lt hi
    rw [hidx]
    simp [pickSeq]
  · rw [List.drop_eq_getElem_cons hi, List.getElem?_eq_getElem hi]
    simp

/-- Witness for C3 on a three-element list starting at cursor 1. -/
theorem claim_C3_round_robin_witness :
    (((mkStatic ["a", "b", "c"] 1).getN 3).1
        = (["a", "b", "c"].drop 1 ++ ["a", "b", "c"].take 1).map some) ∧
      (["a", "b", "c"].drop 1 ++ ["a", "b", "c"].take 1).Perm ["a", "b", "c"] :=
  ⟨(claim_C3_round_robin ["a", "b", "c"] 1 (by decide)).1,
    (claim_C3_round_robin ["a", "b", "c"] 1 (by decide)).2.1⟩

/-- C10: immediately after `HealthChecker` construction, before any probe
cycle, every configured origin reports healthy: `get_healthy_targets` is the
full origin list, `get_response_times` maps every origin to latency 0, and
`get_fastest` returns the first origin in registry order. -/
theorem claim_C10_initial_snapshot (parse : String → String)
    (ts : List Target) (i t : Nat) (c : HealthChecker)
    (h : HealthChecker.init parse ts i t = .ok c) :
    c.get_healthy_targets = c.targets ∧
      c.get_response_times = c.targets.map (fun h2 => (h2, 0)) ∧
      c.get_fastest = c.targets.head? := by
  have hfields : c.status = c.targets.map (fun h2 => (h2, some 0)) := by
    unfold HealthChecker.init at h
    split at h
    · exact Except.noConfusion h
    · split at h
      · exact Except.noConfusion h
      · split at h
        · exact Except.noConfusion h
        · dsimp only at h
          split at h
          · exact Except.noConfusion h
          · injection h with h2
            subst h2
            rfl
  have hrt : c.get_response_times = c.targets.map (fun h2 => (h2, 0)) := by
    unfold HealthChecker.get_response_times
    rw [hfields]
    generalize c.targets = T
    induction T with
    | nil => rfl
    | cons a rest ih => simp [ih]
  refine ⟨?_, ?_, ?_⟩
  · unfold HealthChecker.get_healthy_targets
    rw [hfields]
    refine List.filter_eq_self.mpr ?_
    intro a ha
    rw [dictGet_map_const, if_pos ha]
    decide
  · exact hrt
  · unfold HealthChecker.get_fastest
    rw [hrt]
    rcases htg : c.targets with _ | ⟨a, rest⟩
    · rfl
    · have hmf : minFold a 0 (rest.map (fun h2 => (h2, 0))) = (a, 0) :=
        minFold_const _ _ _ (fun p _ => Nat.not_lt_zero _)
      simp [minKey, minKeyEntry, hmf]

/-- The checker produced by `HealthChecker.init` on one plain address. -/
def c10checker : HealthChecker :=
  { interval := 1
    timeout := 1
    targets_map := [("http://a", "/")]
    is_personalized := false
    global_ping_path := "/"
    targets := ["http://a"]
    status := [("http://a", some 0)]
    last_update := 0
    target_configs := [] }

/-- Witness for C10 on a one-origin registry. -/
theorem claim_C10_initial_snapshot_witness :
    HealthChecker.init (fun s => s) [Target.addr "http://a"] 1 1
        = Except.ok c10checker ∧
      c10checker.get_healthy_targets = c10checker.targets ∧
      c10checker.get_response_times
        = c10checker.targets.map (fun h2 => (h2, 0)) ∧
      c10checker.get_fastest = c10checker.targets.head? :=
  ⟨rfl, claim_C10_initial_snapshot (fun s => s) [Target.addr "http://a"] 1 1
    c10checker rfl⟩

end FRProxy
